import Mathlib

/-!
Shallow embedding of `src/maze.py` (a depth-first maze solver) and proofs
about it.

Conventions of the embedding:
* Cells are the integer codes of the source: `WALL = 0`, `EMPTY = 1`,
  `START_POINT = 2`, `GOAL_POINT = 3`, direction markers `4..7`.
* A grid is a `List (List Nat)` of rows; a position is an `Int × Int`
  pair `(x, y)` exactly as in the source.
* The source indexes a numpy array without a bounds check: a negative
  index in `[-len, -1]` wraps to the end, any other out-of-range index
  raises `IndexError`.  Reads and writes are therefore modelled with
  `Option`, `none` standing for the raised exception.
* The Python lists `path` and `movements` grow by `append` and shrink by
  `pop()` at the tail; they are stored here in reversed order, so the
  most recently appended element is the head.  `path.pop()` is `tail`,
  `path[-1]` is the head, `p in path` is membership (order-independent).
* `solve` never resets `path`/`movements` (they are class-level lists in
  the source), so the embedded solver takes their initial contents as
  arguments; a run on a fresh instance passes `[]`, `[]`.
-/

namespace MazePy

/-- The four directions of class `Movement`. -/
inductive Movement where
  | north
  | east
  | south
  | west
deriving DecidableEq, Repr, Fintype

/-- `Movement.value`: the single-character code of a direction. -/
def Movement.value : Movement → Char
  | .north => 'N'
  | .east => 'E'
  | .south => 'S'
  | .west => 'W'

/-- `Movement.get_opposite` of the source.  Note the source returns
`EAST` for `WEST` (its final `return` is reached only for `WEST`); the
method is in fact never invoked by the solver, because the call site is
missing the call parentheses. -/
def Movement.getOpposite : Movement → Movement
  | .north => .south
  | .east => .west
  | .south => .north
  | .west => .east

/-- Index of a movement in `Maze.MOVEMENTS = [NORTH, EAST, SOUTH, WEST]`. -/
def Movement.idx : Movement → Nat
  | .north => 0
  | .east => 1
  | .south => 2
  | .west => 3

/-- `Maze.MOVEMENTS`. -/
def MOVEMENTS : List Movement := [.north, .east, .south, .west]

-- Cell codes of the source.
def WALL : Nat := 0
def EMPTY : Nat := 1
def START_POINT : Nat := 2
def GOAL_POINT : Nat := 3
def NORTH_MARK : Nat := 4
def EAST_MARK : Nat := 5
def SOUTH_MARK : Nat := 6
def WEST_MARK : Nat := 7

/-- `Maze.CHAR_MAP`, in source (insertion) order. -/
def CHAR_MAP : List (Char × Nat) :=
  [('*', WALL), (' ', EMPTY), ('A', START_POINT), ('B', GOAL_POINT),
   ('N', NORTH_MARK), ('E', EAST_MARK), ('S', SOUTH_MARK), ('W', WEST_MARK)]

/-- `CHAR_MAP[movement.value]` as used by `get_maze_with_movements`. -/
def movementCode : Movement → Nat
  | .north => NORTH_MARK
  | .east => EAST_MARK
  | .south => SOUTH_MARK
  | .west => WEST_MARK

abbrev Pos := Int × Int

abbrev Grid := List (List Nat)

/-- Plain list lookup (`some` iff the index is in range). -/
def listNth {α : Type} : List α → Nat → Option α
  | [], _ => none
  | a :: _, 0 => some a
  | _ :: l, n + 1 => listNth l n

/-- Plain in-range list update (out-of-range indices are rejected before
this is called). -/
def listSet {α : Type} : List α → Nat → α → List α
  | [], _, _ => []
  | _ :: l, 0, b => b :: l
  | a :: l, n + 1, b => a :: listSet l n b

/-- numpy-style indexing: a negative index `i` with `-len ≤ i` wraps to
`i + len`; any other out-of-range index raises `IndexError` (`none`). -/
def npGet {α : Type} (l : List α) (i : Int) : Option α :=
  if 0 ≤ i ∧ i < (l.length : Int) then listNth l i.toNat
  else if -(l.length : Int) ≤ i ∧ i < 0 then listNth l (i + l.length).toNat
  else none

/-- numpy-style element assignment, same index rule as `npGet`. -/
def npSet {α : Type} (l : List α) (i : Int) (a : α) : Option (List α) :=
  if 0 ≤ i ∧ i < (l.length : Int) then some (listSet l i.toNat a)
  else if -(l.length : Int) ≤ i ∧ i < 0 then some (listSet l (i + l.length).toNat a)
  else none

/-- `self.maze[y, x]` (read). -/
def readCell (g : Grid) (p : Pos) : Option Nat :=
  match npGet g p.2 with
  | none => none
  | some row => npGet row p.1

/-- `maze[y][x] = v` (write in `get_maze_with_movements`). -/
def setCell (g : Grid) (p : Pos) (v : Nat) : Option Grid :=
  match npGet g p.2 with
  | none => none
  | some row =>
    match npSet row p.1 v with
    | none => none
    | some row2 => npSet g p.2 row2

def rowsOf (g : Grid) : Nat := g.length

def colsOf (g : Grid) : Nat := (g.headD []).length

/-- The grid is rectangular (an invariant of a 2-D numpy array). -/
abbrev Rect (g : Grid) : Prop := ∀ r ∈ g, r.length = colsOf g

/-- Positions of value `v` inside one row `row` at height `y`, the first
entry of `row` having column index `x0` (row-major order, as `np.where`). -/
def findInRow (v : Nat) (y : Nat) : List Nat → Nat → List Pos
  | [], _ => []
  | c :: cs, x0 =>
    (if c = v then [((x0 : Int), (y : Int))] else []) ++ findInRow v y cs (x0 + 1)

/-- Positions of value `v` in the rows starting at height `y0`. -/
def findAllFrom (v : Nat) : List (List Nat) → Nat → List Pos
  | [], _ => []
  | row :: rest, y0 => findInRow v y0 row 0 ++ findAllFrom v rest (y0 + 1)

/-- All positions of value `v`, row-major, as produced by `np.where`. -/
def findAll (g : Grid) (v : Nat) : List Pos := findAllFrom v g 0

/-- `Maze.__get_point`: `int()` on the `np.where` result succeeds exactly
when the value occurs at a single position; otherwise Python raises. -/
def getPoint (g : Grid) (v : Nat) : Option Pos :=
  match findAll g v with
  | [p] => some p
  | _ => none

/-- `Maze.__get_point_by_movement`. -/
def getPointByMovement (p : Pos) (m : Movement) : Pos :=
  match m with
  | .north => (p.1, p.2 - 1)
  | .east => (p.1 + 1, p.2)
  | .south => (p.1, p.2 + 1)
  | .west => (p.1 - 1, p.2)

/-- `Maze.__is_valid_point`: the cycle check, then the cell test
`maze[y, x] and maze[y, x] in [EMPTY, GOAL_POINT]`.  The source performs
no bounds check before the read; an out-of-range read is `none`
(`IndexError`). -/
def isValidPoint (g : Grid) (path : List Pos) (p : Pos) : Option Bool :=
  if p ∈ path then some false
  else
    match readCell g p with
    | none => none
    | some c =>
      some (decide (c ≠ WALL) && (decide (c = EMPTY) || decide (c = GOAL_POINT)))

/-- The candidate list `MOVEMENTS[index(tried) + 1 :]` (all movements when
nothing was tried yet). -/
def candidates : Option Movement → List Movement
  | none => MOVEMENTS
  | some .north => [.east, .south, .west]
  | some .east => [.south, .west]
  | some .south => [.west]
  | some .west => []

/-- The candidate loop of `__get_next_possible_movement`: first valid
candidate, `some none` when none is valid, `none` on `IndexError`.
The source also guards against the opposite of the last committed
movement, but that guard compares a `Movement` with the *bound method*
`get_opposite` (the call parentheses are missing in the source), which
is never equal to a `Movement`, so the guard never skips a candidate and
is omitted from the embedding. -/
def findMovement (g : Grid) (cur : Pos) (path : List Pos) :
    List Movement → Option (Option Movement)
  | [] => some none
  | m :: rest =>
    match isValidPoint g path (getPointByMovement cur m) with
    | none => none
    | some true => some (some m)
    | some false => findMovement g cur path rest

/-- `Maze.__get_next_possible_movement`. -/
def getNextPossibleMovement (g : Grid) (cur : Pos) (path : List Pos)
    (tried : Option Movement) : Option (Option Movement) :=
  findMovement g cur path (candidates tried)

/-- Result of the inner backtracking `while` of `solve`. -/
inductive InnerRes where
  | crash : InnerRes
  | failed (movements : List Movement) : InnerRes
  | found (m : Movement) (cur : Pos) (path : List Pos)
      (movements : List Movement) : InnerRes
deriving DecidableEq, Repr

/-- The inner backtracking loop of `solve`: pop `path` (an `IndexError`
when it is already empty), return `False` when it became empty (leaving
`movements` untouched), otherwise resume at `path[-1]`, pop the last
movement and look for a candidate strictly after it; repeat while none
is found. -/
def backtrack (g : Grid) : List Pos → List Movement → InnerRes
  | [], _ => .crash
  | _ :: rest, movs =>
    match rest with
    | [] => .failed movs
    | cur :: _ =>
      match movs with
      | [] => .crash
      | last :: restM =>
        match getNextPossibleMovement g cur rest (some last) with
        | none => .crash
        | some (some m) => .found m cur rest restM
        | some none => backtrack g rest restM

/-- Outcome of `solve`; `outOfFuel` carries the state reached so that a
truncated run exposes every intermediate search state. -/
inductive SolveRes where
  | crash : SolveRes
  | outOfFuel (cur : Pos) (path : List Pos) (movements : List Movement) : SolveRes
  | done (success : Bool) (path : List Pos) (movements : List Movement) : SolveRes
deriving DecidableEq, Repr

/-- The outer `while True` of `solve`, fuel-bounded.  One unit of fuel is
one outer iteration: find the next movement (running the inner
backtracking loop if needed), follow it, stop with `True` when the new
position is the goal, else commit it to `path`/`movements`. -/
def solveLoop (g : Grid) (goal : Pos) :
    Nat → Pos → List Pos → List Movement → SolveRes
  | 0, cur, path, movs => .outOfFuel cur path movs
  | fuel + 1, cur, path, movs =>
    match getNextPossibleMovement g cur path none with
    | none => .crash
    | some (some m) =>
      let c2 := getPointByMovement cur m
      if c2 = goal then .done true path movs
      else solveLoop g goal fuel c2 (c2 :: path) (m :: movs)
    | some none =>
      match backtrack g path movs with
      | .crash => .crash
      | .failed ms => .done false [] ms
      | .found m cur2 path2 movs2 =>
        let c2 := getPointByMovement cur2 m
        if c2 = goal then .done true path2 movs2
        else solveLoop g goal fuel c2 (c2 :: path2) (m :: movs2)

/-- `Maze.solve`: resolve start and goal (either failing is a raised
exception), then run the search.  `path0`/`movs0` are the contents the
class-level `path`/`movements` lists hold when `solve` is entered; a
fresh program run passes `[]`, `[]`. -/
def solveMaze (g : Grid) (fuel : Nat) (path0 : List Pos)
    (movs0 : List Movement) : SolveRes :=
  match getPoint g START_POINT, getPoint g GOAL_POINT with
  | some s, some t => solveLoop g t fuel s path0 movs0
  | _, _ => .crash

/-- `Maze.get_path` on a movement list (stored newest-first, hence the
reverse). -/
def getPath (movs : List Movement) : String :=
  String.mk ((movs.reverse).map Movement.value)

/-- The path string produced after a successful `solve`. -/
def resPathString : SolveRes → Option String
  | .done true _ ms => some (getPath ms)
  | _ => none

/-- The `path` component of a solver outcome (empty for a crash). -/
def pathOfRes : SolveRes → List Pos
  | .crash => []
  | .outOfFuel _ p _ => p
  | .done _ p _ => p

/-- The `movements` component of a solver outcome (empty for a crash). -/
def movsOfRes : SolveRes → List Movement
  | .crash => []
  | .outOfFuel _ _ m => m
  | .done _ _ m => m

/-- Whether a run stopped only because fuel ran out. -/
def SolveRes.isOut : SolveRes → Bool
  | .outOfFuel _ _ _ => true
  | _ => false

/-!  Rendering of a solved maze (`get_maze_with_movements`). -/

/-- Pair each path entry (oldest first) with `movements.pop(0)`; popping
from an exhausted movement list raises (`none`). -/
def overlayPairs : List Pos → List Movement → Option (List (Pos × Movement))
  | [], _ => some []
  | _ :: _, [] => none
  | p :: ps, m :: ms =>
    match overlayPairs ps ms with
    | none => none
    | some rest => some ((p, m) :: rest)

/-- The write loop of `get_maze_with_movements`:
`maze[y][x] = CHAR_MAP[movement.value]` for each pair. -/
def overlayLoop : Grid → List (Pos × Movement) → Option Grid
  | g, [] => some g
  | g, (p, m) :: rest =>
    match setCell g p (movementCode m) with
    | none => none
    | some g2 => overlayLoop g2 rest

/-- Digit characters of `str(n)` for a cell value. -/
def cellDigits (n : Nat) : List Char := (Nat.repr n).toList

/-- One rendered row of `get_maze`: `''.join(map(str, row))` followed by
the eight replacements `str(j) → i` of `CHAR_MAP`.  Every code in
`CHAR_MAP` is a single digit and no replacement output is itself a
digit, so each `str.replace` is a per-character map. -/
def renderRow (row : List Nat) : List Char :=
  CHAR_MAP.foldl
    (fun acc pj => acc.map (fun c => if c = Char.ofNat (48 + pj.2) then pj.1 else c))
    (row.flatMap cellDigits)

/-- `Maze.get_maze`: each row rendered and followed by a newline. -/
def getMaze (g : Grid) : String :=
  String.mk (g.flatMap (fun row => renderRow row ++ ['\n']))

/-- `Maze.get_maze_with_movements` applied to a grid and the solver's
final `path`/`movements` (stored newest-first, hence the reverses). -/
def getMazeWithMovements (g : Grid) (path : List Pos) (movs : List Movement) :
    Option String :=
  match overlayPairs path.reverse movs.reverse with
  | none => none
  | some pairs =>
    match overlayLoop g pairs with
    | none => none
    | some g2 => some (getMaze g2)

/-!  Parsing (`from_txt`). -/

/-- The eight replacements `line.replace(i, str(j))` of `from_txt`
applied to one line.  Each pattern is a single character and every
replacement output is a digit, which is not a pattern of a later
replacement, so the whole chain is the per-character fold below. -/
def applyReplaces (l : List Char) : List Char :=
  CHAR_MAP.foldl
    (fun acc pj => acc.flatMap (fun c => if c = pj.1 then cellDigits pj.2 else [c]))
    l

/-- Python `int(c)` on a single character: its digit value, raising
(`none`) on a non-digit. -/
def pyInt (c : Char) : Option Nat :=
  if c.isDigit then some (c.toNat - 48) else none

/-- `list(map(int, list(line)))`, raising when any character is not a
digit. -/
def parseDigits : List Char → Option (List Nat)
  | [] => some []
  | c :: cs =>
    match pyInt c, parseDigits cs with
    | some n, some ns => some (n :: ns)
    | _, _ => none

/-- One line of `from_txt`. -/
def parseLine (l : List Char) : Option (List Nat) :=
  parseDigits (applyReplaces l)

/-- `Maze.from_txt` on the list of lines read from the file. -/
def fromTxt : List (List Char) → Option Grid
  | [] => some []
  | l :: ls =>
    match parseLine l, fromTxt ls with
    | some row, some rows => some (row :: rows)
    | _, _ => none

/-!  Instrumented search, counting direction evaluations.

These definitions repeat `findMovement`/`backtrack`/`solveLoop` verbatim
except that they additionally count how many candidate directions are
evaluated (one evaluation = one `__is_valid_point` call). -/

def findMovementC (g : Grid) (cur : Pos) (path : List Pos) :
    List Movement → Option (Option Movement) × Nat
  | [] => (some none, 0)
  | m :: rest =>
    match isValidPoint g path (getPointByMovement cur m) with
    | none => (none, 1)
    | some true => (some (some m), 1)
    | some false =>
      let r := findMovementC g cur path rest
      (r.1, r.2 + 1)

def backtrackC (g : Grid) : List Pos → List Movement → InnerRes × Nat
  | [], _ => (.crash, 0)
  | _ :: rest, movs =>
    match rest with
    | [] => (.failed movs, 0)
    | cur :: _ =>
      match movs with
      | [] => (.crash, 0)
      | last :: restM =>
        match findMovementC g cur rest (candidates (some last)) with
        | (none, n) => (.crash, n)
        | (some (some m), n) => (.found m cur rest restM, n)
        | (some none, n) =>
          let r := backtrackC g rest restM
          (r.1, r.2 + n)

def solveLoopC (g : Grid) (goal : Pos) :
    Nat → Pos → List Pos → List Movement → SolveRes × Nat
  | 0, cur, path, movs => (.outOfFuel cur path movs, 0)
  | fuel + 1, cur, path, movs =>
    match findMovementC g cur path (candidates none) with
    | (none, n) => (.crash, n)
    | (some (some m), n) =>
      let c2 := getPointByMovement cur m
      if c2 = goal then (.done true path movs, n)
      else
        let r := solveLoopC g goal fuel c2 (c2 :: path) (m :: movs)
        (r.1, r.2 + n)
    | (some none, n) =>
      match backtrackC g path movs with
      | (.crash, n2) => (.crash, n + n2)
      | (.failed ms, n2) => (.done false [] ms, n + n2)
      | (.found m cur2 path2 movs2, n2) =>
        let c2 := getPointByMovement cur2 m
        if c2 = goal then (.done true path2 movs2, n + n2)
        else
          let r := solveLoopC g goal fuel c2 (c2 :: path2) (m :: movs2)
          (r.1, r.2 + n + n2)

/-- `solve` instrumented with the number of direction evaluations. -/
def solveMazeC (g : Grid) (fuel : Nat) (path0 : List Pos)
    (movs0 : List Movement) : SolveRes × Nat :=
  match getPoint g START_POINT, getPoint g GOAL_POINT with
  | some s, some t => solveLoopC g t fuel s path0 movs0
  | _, _ => (.crash, 0)

/-!  Notions used by the invariant and termination proofs. -/

/-- A position is inside the doubled index box: the set of positions the
source can read without raising (negative wrap included). -/
def inBox (g : Grid) (p : Pos) : Prop :=
  (-(colsOf g : Int) ≤ p.1 ∧ p.1 < (colsOf g : Int)) ∧
  (-(rowsOf g : Int) ≤ p.2 ∧ p.2 < (rowsOf g : Int))

/-- The readable box as a finite set. -/
def boxFinset (g : Grid) : Finset Pos :=
  (Finset.Ico (-(colsOf g : Int)) (colsOf g)) ×ˢ
    (Finset.Ico (-(rowsOf g : Int)) (rowsOf g))

/-- Upper bound on the number of distinct readable positions. -/
def boxBound (g : Grid) : Nat := 4 * rowsOf g * colsOf g

/-- Fuel sufficient for `solveLoop` to reach a terminal outcome. -/
def fuelBound (g : Grid) : Nat := 5 ^ (boxBound g + 2) + 1

/-- Termination measure of a search state, through its committed
`movements` word (stored newest-first).  One outer iteration of `solve`
either appends a movement (the measure gains a positive term) or
backtracks and resumes with a strictly later movement at the popped
depth, which outweighs everything committed beyond that depth.  The
measure strictly grows each iteration and is bounded, so the search
terminates. -/
def measureM (P : Nat) : List Movement → Nat
  | [] => 0
  | m :: rest => (m.idx + 1) * 5 ^ (P - rest.length) + measureM P rest

/-- Invariant of the search state at the top of the outer `solve` loop
(starting from fresh empty `path`/`movements`): positions in `path` are
pairwise distinct, each of them was accepted by `__is_valid_point`
(their cell reads back as `EMPTY` or `GOAL_POINT`), the goal was never
committed, and the two stacks have equal length. -/
structure LoopInv (g : Grid) (goal : Pos) (path : List Pos)
    (movs : List Movement) : Prop where
  nodup : path.Nodup
  cells : ∀ p ∈ path, ∃ c, readCell g p = some c ∧ (c = EMPTY ∨ c = GOAL_POINT)
  nogoal : goal ∉ path
  len : movs.length = path.length

/-- What the invariant becomes on each solver outcome: intermediate
(out-of-fuel) and successful states satisfy `LoopInv`; a `False` return
leaves an empty path and exactly one leftover movement; a crash ends the
run. -/
def ResInv (g : Grid) (goal : Pos) : SolveRes → Prop
  | .crash => True
  | .outOfFuel _ p m => LoopInv g goal p m
  | .done true p m => LoopInv g goal p m
  | .done false p m => p = [] ∧ m.length = 1

/-!  Concrete grids used by the claims.  Each is written with the cell
codes of `CHAR_MAP` (`0 = *`, `1 = space`, `2 = A`, `3 = B`). -/

/-- The one-row maze `"A B"`: start and goal on a common row with no
wall between them. -/
def exGridC1 : Grid := [[2, 1, 3]]

/-- `"B**" / "*A*" / "***"`: the start is surrounded on all four sides
by walls. -/
def exGridC2 : Grid := [[3, 0, 0], [0, 2, 0], [0, 0, 0]]

/-- `"***B" / "*A *" / "****"`: one step east, then a dead end; the goal
is unreachable. -/
def exGridC3 : Grid := [[0, 0, 0, 3], [0, 2, 1, 0], [0, 0, 0, 0]]

/-- `"A*" / "**" / " B"`: the first candidate neighbor of the start is
`(0, -1)`, outside the grid. -/
def exGridC4 : Grid := [[2, 0], [0, 0], [1, 3]]

/-- `"A *" / "*B*" / "***"`: the 3×3 scenario grid with start `(0,0)`, a
clear corridor east then south, and goal `(1,1)`. -/
def exGridC5 : Grid := [[2, 1, 0], [0, 3, 0], [0, 0, 0]]

/-- A 5×5 walled maze with an open 3×3 interior and a sealed goal: the
search exhausts every simple path before failing. -/
def exGridC9 : Grid :=
  [[0, 0, 0, 0, 0], [0, 2, 1, 1, 0], [0, 1, 1, 1, 0], [0, 1, 1, 1, 0],
   [0, 0, 0, 0, 3]]

/-- `"* *A*" / "* B *" / "**  *" / "*   *"`: the solver climbs off the
top edge (numpy wrap), steps onto position `(2, -3)` whose wrapped cell
is the goal marker, and still reaches the real goal afterwards. -/
def exGridC10 : Grid :=
  [[0, 1, 0, 2, 0], [0, 1, 3, 1, 0], [0, 0, 1, 1, 0], [0, 1, 1, 1, 0]]

/-- Final `path` of the successful run on `exGridC10` (newest first). -/
def exPathC10 : List Pos :=
  [(1, 1), (1, 0), (1, -1), (2, -1), (2, -2), (2, -3), (3, -3), (3, -2),
   (3, -1)]

/-- Final `movements` of the successful run on `exGridC10` (newest
first). -/
def exMovsC10 : List Movement :=
  [.south, .south, .west, .south, .south, .west, .north, .north, .north]

/-!  Helper lemmas: list lookup, numpy indexing, grid bounds. -/

theorem listNth_mem {α : Type} : ∀ (l : List α) (n : Nat) (a : α),
    listNth l n = some a → a ∈ l := by
  intro l
  induction l with
  | nil => intro n a h; simp [listNth] at h
  | cons x xs ih =>
    intro n a h
    cases n with
    | zero => simp [listNth] at h; simp [h]
    | succ k => simp [listNth] at h; exact List.mem_cons_of_mem x (ih k a h)

theorem listNth_lt_length {α : Type} : ∀ (l : List α) (n : Nat) (a : α),
    listNth l n = some a → n < l.length := by
  intro l
  induction l with
  | nil => intro n a h; simp [listNth] at h
  | cons x xs ih =>
    intro n a h
    cases n with
    | zero => simp
    | succ k =>
      simp [listNth] at h
      have := ih k a h
      simp
      omega

theorem listNth_of_lt {α : Type} : ∀ (l : List α) (n : Nat),
    n < l.length → ∃ a, listNth l n = some a := by
  intro l
  induction l with
  | nil => intro n h; simp at h
  | cons x xs ih =>
    intro n h
    cases n with
    | zero => exact ⟨x, rfl⟩
    | succ k =>
      simp at h
      exact ih k (by omega)

theorem npGet_bounds {α : Type} (l : List α) (i : Int) (a : α)
    (h : npGet l i = some a) : -(l.length : Int) ≤ i ∧ i < (l.length : Int) := by
  unfold npGet at h
  split at h
  · omega
  · split at h
    · omega
    · simp at h

theorem npGet_mem {α : Type} (l : List α) (i : Int) (a : α)
    (h : npGet l i = some a) : a ∈ l := by
  unfold npGet at h
  split at h
  · exact listNth_mem _ _ _ h
  · split at h
    · exact listNth_mem _ _ _ h
    · simp at h

theorem npGet_nonneg {α : Type} (l : List α) (n : Nat) (hn : n < l.length) :
    npGet l (n : Int) = listNth l n := by
  unfold npGet
  have h1 : 0 ≤ (n : Int) ∧ (n : Int) < (l.length : Int) := by omega
  rw [if_pos h1]
  simp

theorem readCell_inBox (g : Grid) (p : Pos) (c : Nat) (hrect : Rect g)
    (h : readCell g p = some c) : inBox g p := by
  unfold readCell at h
  cases hrow : npGet g p.2 with
  | none => rw [hrow] at h; simp at h
  | some row =>
    rw [hrow] at h
    have hy := npGet_bounds g p.2 row hrow
    have hx := npGet_bounds row p.1 c h
    have hmem : row ∈ g := npGet_mem g p.2 row hrow
    have hlen : row.length = colsOf g := hrect row hmem
    rw [hlen] at hx
    exact ⟨hx, by simpa [rowsOf] using hy⟩

theorem mem_boxFinset (g : Grid) (p : Pos) :
    p ∈ boxFinset g ↔ inBox g p := by
  unfold boxFinset inBox
  rw [Finset.mem_product, Finset.mem_Ico, Finset.mem_Ico]

theorem boxFinset_card (g : Grid) :
    (boxFinset g).card = 4 * rowsOf g * colsOf g := by
  unfold boxFinset
  rw [Finset.card_product, Int.card_Ico, Int.card_Ico]
  have h1 : (colsOf g : Int) - -(colsOf g : Int) = ((2 * colsOf g : Nat) : Int) := by
    push_cast; ring
  have h2 : (rowsOf g : Int) - -(rowsOf g : Int) = ((2 * rowsOf g : Nat) : Int) := by
    push_cast; ring
  rw [h1, h2, Int.toNat_natCast, Int.toNat_natCast]
  ring

theorem nodup_length_le_box (g : Grid) (path : List Pos)
    (hnd : path.Nodup) (hbox : ∀ p ∈ path, inBox g p) :
    path.length ≤ 4 * rowsOf g * colsOf g := by
  have hsub : path.toFinset ⊆ boxFinset g := by
    intro p hp
    rw [List.mem_toFinset] at hp
    exact (mem_boxFinset g p).mpr (hbox p hp)
  have := Finset.card_le_card hsub
  rw [List.toFinset_card_of_nodup hnd, boxFinset_card] at this
  exact this

/-!  Helper lemmas: validity checks and candidate search. -/

theorem isValidPoint_true (g : Grid) (path : List Pos) (p : Pos)
    (h : isValidPoint g path p = some true) :
    p ∉ path ∧ ∃ c, readCell g p = some c ∧ (c = EMPTY ∨ c = GOAL_POINT) := by
  unfold isValidPoint at h
  split at h
  · simp at h
  · next hmem =>
    cases hc : readCell g p with
    | none => rw [hc] at h; simp at h
    | some c =>
      rw [hc] at h
      simp only [Option.some.injEq] at h
      refine ⟨hmem, c, rfl, ?_⟩
      have h2 := h
      cases e1 : decide (c = EMPTY) with
      | true => exact Or.inl (of_decide_eq_true e1)
      | false =>
        cases e2 : decide (c = GOAL_POINT) with
        | true => exact Or.inr (of_decide_eq_true e2)
        | false => rw [e1, e2] at h2; simp at h2

theorem findMovement_some (g : Grid) (cur : Pos) (path : List Pos) :
    ∀ (cands : List Movement) (m : Movement),
    findMovement g cur path cands = some (some m) →
    m ∈ cands ∧ isValidPoint g path (getPointByMovement cur m) = some true := by
  intro cands
  induction cands with
  | nil => intro m h; simp [findMovement] at h
  | cons c cs ih =>
    intro m h
    unfold findMovement at h
    cases hv : isValidPoint g path (getPointByMovement cur c) with
    | none => rw [hv] at h; simp at h
    | some b =>
      rw [hv] at h
      cases b with
      | true =>
        simp at h
        subst h
        exact ⟨List.mem_cons_self _ _, hv⟩
      | false =>
        simp at h
        have := ih m h
        exact ⟨List.mem_cons_of_mem _ this.1, this.2⟩

theorem candidates_lt :
    ∀ (last m : Movement), m ∈ candidates (some last) →
      last.idx < m.idx := by
  decide

theorem movement_idx_le (m : Movement) : m.idx ≤ 3 := by
  cases m <;> decide

/-!  Helper lemmas: the inner backtracking loop. -/

theorem backtrack_found (g : Grid) :
    ∀ (path : List Pos) (movs : List Movement) (m : Movement) (cur2 : Pos)
      (path2 : List Pos) (movs2 : List Movement),
    backtrack g path movs = .found m cur2 path2 movs2 →
    (∃ k, path2 = path.drop k ∧ movs2 = movs.drop k) ∧
    (∃ last restM, movs = last :: restM) ∧
    isValidPoint g path2 (getPointByMovement cur2 m) = some true := by
  intro path
  induction path with
  | nil =>
    intro movs m cur2 path2 movs2 h
    simp [backtrack] at h
  | cons x rest ih =>
    intro movs m cur2 path2 movs2 h
    cases rest with
    | nil => simp [backtrack] at h
    | cons cur tl =>
      cases movs with
      | nil => simp [backtrack] at h
      | cons last restM =>
        cases hnm : getNextPossibleMovement g cur (cur :: tl) (some last) with
        | none => simp [backtrack, hnm] at h
        | some o =>
          cases o with
          | some m2 =>
            simp only [backtrack, hnm] at h
            cases h
            unfold getNextPossibleMovement at hnm
            refine ⟨⟨1, rfl, rfl⟩, ⟨_, _, rfl⟩, ?_⟩
            exact (findMovement_some g _ _ _ _ hnm).2
          | none =>
            simp only [backtrack, hnm] at h
            obtain ⟨⟨k, hp, hm⟩, _, hv⟩ := ih restM m cur2 path2 movs2 h
            exact ⟨⟨k + 1, by simp [hp], by simp [hm]⟩,
              ⟨last, restM, rfl⟩, hv⟩

theorem backtrack_failed_len (g : Grid) :
    ∀ (path : List Pos) (movs : List Movement) (ms : List Movement),
    movs.length = path.length →
    backtrack g path movs = .failed ms → ms.length = 1 := by
  intro path
  induction path with
  | nil =>
    intro movs ms _ h
    simp [backtrack] at h
  | cons x rest ih =>
    intro movs ms hlen h
    cases rest with
    | nil =>
      simp [backtrack] at h
      subst h
      simpa using hlen
    | cons cur tl =>
      cases movs with
      | nil => simp [backtrack] at h
      | cons last restM =>
        cases hnm : getNextPossibleMovement g cur (cur :: tl) (some last) with
        | none => simp [backtrack, hnm] at h
        | some o =>
          cases o with
          | some m2 => simp [backtrack, hnm] at h
          | none =>
            simp only [backtrack, hnm] at h
            exact ih restM ms (by simpa using hlen) h

/-!  Helper lemmas: the termination measure. -/

theorem measureM_cons (P : Nat) (m : Movement) (l : List Movement) :
    measureM P (m :: l) = (m.idx + 1) * 5 ^ (P - l.length) + measureM P l := rfl

theorem measureM_lt_cons (P : Nat) (m : Movement) (l : List Movement) :
    measureM P l < measureM P (m :: l) := by
  rw [measureM_cons]
  have h5 : 0 < 5 ^ (P - l.length) := Nat.pos_pow_of_pos _ (by omega)
  have h1 : 0 < (m.idx + 1) * 5 ^ (P - l.length) := Nat.mul_pos (by omega) h5
  omega

theorem backtrack_measure (g : Grid) (P : Nat) :
    ∀ (path : List Pos) (last : Movement) (restM : List Movement)
      (m : Movement) (cur2 : Pos) (path2 : List Pos) (movs2 : List Movement),
    (last :: restM).length = path.length → path.length ≤ P →
    backtrack g path (last :: restM) = .found m cur2 path2 movs2 →
    measureM P restM + (last.idx + 2) * 5 ^ (P - restM.length) ≤
      measureM P (m :: movs2) := by
  intro path
  induction path with
  | nil =>
    intro last restM m cur2 path2 movs2 hlen _ h
    simp at hlen
  | cons x rest ih =>
    intro last restM m cur2 path2 movs2 hlen hle h
    cases rest with
    | nil => simp [backtrack] at h
    | cons cur tl =>
      cases hnm : getNextPossibleMovement g cur (cur :: tl) (some last) with
      | none => simp [backtrack, hnm] at h
      | some o =>
        cases o with
        | some m2 =>
          simp only [backtrack, hnm] at h
          cases h
          unfold getNextPossibleMovement at hnm
          rw [measureM_cons]
          obtain ⟨hcand, -⟩ := findMovement_some g _ _ _ _ hnm
          have hlt := candidates_lt _ _ hcand
          have hx : last.idx + 2 ≤ m.idx + 1 := by omega
          have hmul := Nat.mul_le_mul_right (5 ^ (P - restM.length)) hx
          omega
        | none =>
          simp only [backtrack, hnm] at h
          cases restM with
          | nil =>
            cases tl with
            | nil => simp [backtrack] at h
            | cons a b => simp [backtrack] at h
          | cons last2 restM2 =>
            have hlen2 : (last2 :: restM2).length = (cur :: tl).length := by
              simp only [List.length_cons] at hlen ⊢
              omega
            have hle2 : (cur :: tl).length ≤ P := by
              simp only [List.length_cons] at hle ⊢
              omega
            have hih := ih last2 restM2 m cur2 path2 movs2 hlen2 hle2 h
            have hk : restM2.length + 2 ≤ P := by
              simp only [List.length_cons] at hlen2 hle
              omega
            rw [measureM_cons]
            have he1 : P - restM2.length = (P - restM2.length - 1) + 1 := by
              omega
            have he2 : P - (last2 :: restM2).length = P - restM2.length - 1 := by
              simp only [List.length_cons]
              omega
            have hstep : (last.idx + 2) * 5 ^ (P - (last2 :: restM2).length) ≤
                5 ^ (P - restM2.length) := by
              rw [he2, he1, pow_succ]
              have hfive : last.idx + 2 ≤ 5 := by
                have := movement_idx_le last
                omega
              calc (last.idx + 2) * 5 ^ (P - restM2.length - 1)
                  ≤ 5 * 5 ^ (P - restM2.length - 1) :=
                    Nat.mul_le_mul_right _ hfive
                _ = 5 ^ (P - restM2.length - 1) * 5 := by ring
            have hsplit : (last2.idx + 2) * 5 ^ (P - restM2.length) =
                (last2.idx + 1) * 5 ^ (P - restM2.length) +
                  5 ^ (P - restM2.length) := by
              ring
            omega

theorem measureM_bound (P : Nat) :
    ∀ (l : List Movement), l.length ≤ P + 1 →
    4 * measureM P l + 5 ^ (P + 2 - l.length) ≤ 5 ^ (P + 2) := by
  intro l
  induction l with
  | nil => simp [measureM]
  | cons m rest ih =>
    intro hlen
    have hk : rest.length ≤ P := by
      simp only [List.length_cons] at hlen
      omega
    have hrec := ih (by omega)
    rw [measureM_cons]
    have he1 : P + 2 - (m :: rest).length = (P - rest.length) + 1 := by
      simp only [List.length_cons]
      omega
    have he2 : P + 2 - rest.length = (P - rest.length) + 2 := by omega
    have hidx : m.idx ≤ 3 := movement_idx_le m
    have hmain : 4 * ((m.idx + 1) * 5 ^ (P - rest.length)) +
        5 ^ ((P - rest.length) + 1) ≤ 5 ^ ((P - rest.length) + 2) := by
      have h16 : 4 * (m.idx + 1) ≤ 16 := by omega
      have g1 : 4 * ((m.idx + 1) * 5 ^ (P - rest.length)) ≤
          16 * 5 ^ (P - rest.length) := by
        have := Nat.mul_le_mul_right (5 ^ (P - rest.length)) h16
        calc 4 * ((m.idx + 1) * 5 ^ (P - rest.length))
            = 4 * (m.idx + 1) * 5 ^ (P - rest.length) := by ring
          _ ≤ 16 * 5 ^ (P - rest.length) := this
      have g2 : 5 ^ ((P - rest.length) + 1) = 5 * 5 ^ (P - rest.length) := by
        rw [pow_succ]; ring
      have g3 : 5 ^ ((P - rest.length) + 2) = 25 * 5 ^ (P - rest.length) := by
        rw [pow_add]; ring
      omega
    rw [he1]
    rw [he2] at hrec
    omega

theorem measureM_le (P : Nat) (l : List Movement) (h : l.length ≤ P + 1) :
    measureM P l ≤ 5 ^ (P + 2) := by
  have hb := measureM_bound P l h
  have hp : 0 < 5 ^ (P + 2 - l.length) := Nat.pos_pow_of_pos _ (by omega)
  omega

/-!  Helper lemmas: preservation of the loop invariant. -/

theorem loopInv_nil (g : Grid) (goal : Pos) : LoopInv g goal [] [] := by
  refine ⟨List.nodup_nil, ?_, ?_, rfl⟩
  · intro p hp; simp at hp
  · simp

theorem loopInv_push (g : Grid) (goal : Pos) (path : List Pos)
    (movs : List Movement) (c2 : Pos) (m : Movement)
    (hinv : LoopInv g goal path movs)
    (hvalid : isValidPoint g path c2 = some true)
    (hgoal : c2 ≠ goal) :
    LoopInv g goal (c2 :: path) (m :: movs) := by
  obtain ⟨hnotmem, c, hc, hco⟩ := isValidPoint_true g path c2 hvalid
  refine ⟨List.nodup_cons.mpr ⟨hnotmem, hinv.nodup⟩, ?_, ?_, ?_⟩
  · intro p hp
    rcases List.mem_cons.mp hp with h | h
    · exact h ▸ ⟨c, hc, hco⟩
    · exact hinv.cells p h
  · intro hmem
    rcases List.mem_cons.mp hmem with h | h
    · exact hgoal h.symm
    · exact hinv.nogoal h
  · simp [hinv.len]

theorem loopInv_drop (g : Grid) (goal : Pos) (path : List Pos)
    (movs : List Movement) (k : Nat) (hinv : LoopInv g goal path movs) :
    LoopInv g goal (path.drop k) (movs.drop k) := by
  refine ⟨hinv.nodup.sublist (List.drop_sublist k path), ?_, ?_, ?_⟩
  · intro p hp
    exact hinv.cells p (List.drop_subset k path hp)
  · intro hmem
    exact hinv.nogoal (List.drop_subset k path hmem)
  · simp [List.length_drop, hinv.len]

theorem loopInv_length_le (g : Grid) (goal : Pos) (path : List Pos)
    (movs : List Movement) (hrect : Rect g)
    (hinv : LoopInv g goal path movs) : path.length ≤ boxBound g := by
  apply nodup_length_le_box g path hinv.nodup
  intro p hp
  obtain ⟨c, hc, -⟩ := hinv.cells p hp
  exact readCell_inBox g p c hrect hc

theorem solveLoop_inv (g : Grid) (goal : Pos) :
    ∀ (fuel : Nat) (cur : Pos) (path : List Pos) (movs : List Movement),
    LoopInv g goal path movs →
    ResInv g goal (solveLoop g goal fuel cur path movs) := by
  intro fuel
  induction fuel with
  | zero =>
    intro cur path movs hinv
    exact hinv
  | succ fuel ih =>
    intro cur path movs hinv
    cases hnm : getNextPossibleMovement g cur path none with
    | none =>
      simp only [solveLoop, hnm]
      trivial
    | some o =>
      cases o with
      | some m =>
        simp only [solveLoop, hnm]
        split
        · exact hinv
        · next hgoal =>
          apply ih
          have hvalid := (findMovement_some g cur path _ m hnm).2
          exact loopInv_push g goal path movs _ m hinv hvalid hgoal
      | none =>
        cases hbt : backtrack g path movs with
        | crash =>
          simp only [solveLoop, hnm, hbt]
          trivial
        | failed ms =>
          simp only [solveLoop, hnm, hbt]
          exact ⟨rfl, backtrack_failed_len g path movs ms hinv.len hbt⟩
        | found m cur2 path2 movs2 =>
          simp only [solveLoop, hnm, hbt]
          obtain ⟨⟨k, hp2, hm2⟩, -, hvalid⟩ :=
            backtrack_found g path movs m cur2 path2 movs2 hbt
          have hinv2 : LoopInv g goal path2 movs2 := by
            rw [hp2, hm2]
            exact loopInv_drop g goal path movs k hinv
          split
          · exact hinv2
          · next hgoal =>
            apply ih
            exact loopInv_push g goal path2 movs2 _ m hinv2 hvalid hgoal

theorem solveLoop_not_out (g : Grid) (goal : Pos) (hrect : Rect g) :
    ∀ (fuel : Nat) (cur : Pos) (path : List Pos) (movs : List Movement),
    LoopInv g goal path movs →
    5 ^ (boxBound g + 2) + 1 ≤ fuel + measureM (boxBound g) movs →
    (solveLoop g goal fuel cur path movs).isOut = false := by
  intro fuel
  induction fuel with
  | zero =>
    intro cur path movs hinv harith
    exfalso
    have hlen : movs.length ≤ boxBound g + 1 := by
      have h1 := loopInv_length_le g goal path movs hrect hinv
      have h2 := hinv.len
      omega
    have := measureM_le (boxBound g) movs hlen
    omega
  | succ fuel ih =>
    intro cur path movs hinv harith
    cases hnm : getNextPossibleMovement g cur path none with
    | none =>
      simp [solveLoop, hnm, SolveRes.isOut]
    | some o =>
      cases o with
      | some m =>
        simp only [solveLoop, hnm]
        split
        · rfl
        · next hgoal =>
          apply ih _ _ _
            (loopInv_push g goal path movs _ m hinv
              ((findMovement_some g cur path _ m hnm).2) hgoal)
          have := measureM_lt_cons (boxBound g) m movs
          omega
      | none =>
        cases hbt : backtrack g path movs with
        | crash => simp [solveLoop, hnm, hbt, SolveRes.isOut]
        | failed ms => simp [solveLoop, hnm, hbt, SolveRes.isOut]
        | found m cur2 path2 movs2 =>
          simp only [solveLoop, hnm, hbt]
          obtain ⟨⟨k, hp2, hm2⟩, ⟨last, restM, hmv⟩, hvalid⟩ :=
            backtrack_found g path movs m cur2 path2 movs2 hbt
          have hinv2 : LoopInv g goal path2 movs2 := by
            rw [hp2, hm2]
            exact loopInv_drop g goal path movs k hinv
          have hplen : path.length ≤ boxBound g :=
            loopInv_length_le g goal path movs hrect hinv
          have hmeas : measureM (boxBound g) restM +
              (last.idx + 2) * 5 ^ (boxBound g - restM.length) ≤
              measureM (boxBound g) (m :: movs2) := by
            apply backtrack_measure g (boxBound g) path last restM m cur2
              path2 movs2
            · rw [hmv] at hinv
              exact hinv.len
            · exact hplen
            · rw [hmv] at hbt
              exact hbt
          have hgrow : measureM (boxBound g) movs + 1 ≤
              measureM (boxBound g) (m :: movs2) := by
            rw [hmv, measureM_cons]
            have hsplit : (last.idx + 2) * 5 ^ (boxBound g - restM.length) =
                (last.idx + 1) * 5 ^ (boxBound g - restM.length) +
                  5 ^ (boxBound g - restM.length) := by
              ring
            have hpos : 0 < 5 ^ (boxBound g - restM.length) :=
              Nat.pos_pow_of_pos _ (by omega)
            omega
          split
          · rfl
          · next hgoal =>
            apply ih _ _ _
              (loopInv_push g goal path2 movs2 _ m hinv2 hvalid hgoal)
            omega

/-!  Helper lemmas: locating the start and goal cells. -/

theorem findInRow_spec (v : Nat) (y : Nat) :
    ∀ (row : List Nat) (x0 : Nat) (p : Pos), p ∈ findInRow v y row x0 →
    ∃ i, listNth row i = some v ∧ p = (((x0 + i : Nat) : Int), (y : Int)) := by
  intro row
  induction row with
  | nil => intro x0 p hp; simp [findInRow] at hp
  | cons c cs ih =>
    intro x0 p hp
    unfold findInRow at hp
    rw [List.mem_append] at hp
    rcases hp with hp | hp
    · split at hp
      · next hc =>
        simp at hp
        refine ⟨0, ?_, ?_⟩
        · simp [listNth, hc]
        · simp [hp]
      · simp at hp
    · obtain ⟨i, hi, hpi⟩ := ih (x0 + 1) p hp
      refine ⟨i + 1, by simpa [listNth] using hi, ?_⟩
      rw [hpi]
      congr 1
      omega

theorem findAllFrom_spec (v : Nat) :
    ∀ (rows : List (List Nat)) (y0 : Nat) (p : Pos), p ∈ findAllFrom v rows y0 →
    ∃ j row, listNth rows j = some row ∧
      ∃ i, listNth row i = some v ∧ p = ((i : Int), ((y0 + j : Nat) : Int)) := by
  intro rows
  induction rows with
  | nil => intro y0 p hp; simp [findAllFrom] at hp
  | cons row rest ih =>
    intro y0 p hp
    unfold findAllFrom at hp
    rw [List.mem_append] at hp
    rcases hp with hp | hp
    · obtain ⟨i, hi, hpi⟩ := findInRow_spec v y0 row 0 p hp
      refine ⟨0, row, rfl, i, hi, ?_⟩
      simpa using hpi
    · obtain ⟨j, row2, hj, i, hi, hpi⟩ := ih (y0 + 1) p hp
      refine ⟨j + 1, row2, by simpa [listNth] using hj, i, hi, ?_⟩
      rw [hpi]
      congr 2
      omega

theorem getPoint_readCell (g : Grid) (v : Nat) (p : Pos)
    (h : getPoint g v = some p) : readCell g p = some v := by
  unfold getPoint at h
  cases hfa : findAll g v with
  | nil => rw [hfa] at h; simp at h
  | cons q qs =>
    cases qs with
    | cons q2 qs2 => rw [hfa] at h; simp at h
    | nil =>
      rw [hfa] at h
      simp at h
      subst h
      have hq : q ∈ findAll g v := by rw [hfa]; exact List.mem_singleton_self q
      obtain ⟨j, row, hj, i, hi, hpi⟩ := findAllFrom_spec v g 0 q hq
      subst hpi
      unfold readCell
      have hjlt := listNth_lt_length g j row hj
      have hrow : npGet g (((0 + j : Nat) : Int)) = some row := by
        have : ((0 + j : Nat) : Int) = ((j : Nat) : Int) := by omega
        rw [this, npGet_nonneg g j hjlt, hj]
      simp only [hrow]
      have hilt := listNth_lt_length row i v hi
      rw [npGet_nonneg row i hilt, hi]

/-!  Concrete claim theorems. -/

/-- C1: the claim says that whenever start and goal share a row or
column with no wall between them, `solve` returns `True` landing on the
goal.  On the one-row maze `"A B"` — start `(0,0)`, goal `(2,0)`, the
cell between them empty — the solver instead wanders off the top edge
through numpy index wrap-around and raises `IndexError`. -/
theorem c1_straight_line_crash :
    getPoint exGridC1 START_POINT = some (0, 0) ∧
    getPoint exGridC1 GOAL_POINT = some (2, 0) ∧
    readCell exGridC1 (1, 0) = some EMPTY ∧
    solveMaze exGridC1 10 [] [] = SolveRes.crash := by
  decide

/-- C2: the claim says a grid whose start is surrounded on all four
sides by walls makes `solve` return `False` immediately with an empty
path.  Instead `solve` executes `self.path.pop()` on the empty path
list and raises `IndexError`. -/
theorem c2_enclosed_start_crash :
    getPoint exGridC2 START_POINT = some (1, 1) ∧
    (∀ m ∈ MOVEMENTS,
      readCell exGridC2 (getPointByMovement (1, 1) m) = some WALL) ∧
    solveMaze exGridC2 10 [] [] = SolveRes.crash := by
  decide

/-- C3 (counterexample): after `solve` returns `False` on `exGridC3`,
`path` is empty but `movements` still holds one entry, so
`len(path) == len(movements)` fails at an observable point. -/
theorem c3_length_mismatch_after_failure :
    solveMaze exGridC3 10 [] [] = SolveRes.done false [] [Movement.east] ∧
    (movsOfRes (solveMaze exGridC3 10 [] [])).length ≠
      (pathOfRes (solveMaze exGridC3 10 [] [])).length := by
  decide

/-- C4: the claim says every cell lookup of the search stays inside the
grid.  On `exGridC4` the very first candidate neighbor of the start is
`(0, -1)`, outside the grid, yet `__is_valid_point` accepts it (numpy
wraps the negative row to the opposite edge), and two steps later the
lookup at `(2, -1)` is out of range and raises `IndexError`. -/
theorem c4_out_of_bounds_read :
    isValidPoint exGridC4 [] ((0 : Int), (-1 : Int)) = some true ∧
    solveMaze exGridC4 10 [] [] = SolveRes.crash := by
  decide

/-- C5 (counterexample): on the 3×3 scenario grid the final step onto
the goal is never appended to `movements`, so `get_path` returns `"E"`,
not the claimed two-character string `"ES"`. -/
theorem c5_path_string_not_ES :
    resPathString (solveMaze exGridC5 20 [] []) ≠ some "ES" := by
  decide

/-- C5 (amended): on the 3×3 scenario grid `solve` returns `True`, the
committed path is the single corridor cell `(1,0)`, and `get_path`
returns the one-character string `"E"` — the move that lands on the
goal is not recorded. -/
theorem c5_solves_with_path_E :
    solveMaze exGridC5 20 [] [] =
      SolveRes.done true [((1 : Int), (0 : Int))] [Movement.east] ∧
    resPathString (solveMaze exGridC5 20 [] []) = some "E" := by
  decide

/-- C7 (counterexample): `solve` never resets the class-level
`path`/`movements` lists, so its outcome depends on what they contain
when it is entered: on the very same grid a fresh state solves the maze
and the state left over from that successful run makes it fail. -/
theorem c7_result_depends_on_leftover_state :
    solveMaze exGridC5 20 [(1, 0)] [Movement.east] ≠
      solveMaze exGridC5 20 [] [] := by
  decide

/-- C7 (amended): `current_pos` and `goal_pos` are re-resolved on every
`solve` call, but `path`/`movements` start with whatever they already
contain: with fresh empty lists the scenario grid solves with path
`[(1,0)]`, while re-entering `solve` with the state left over from that
run returns `False` (and still leaves a movement behind). -/
theorem c7_second_run_fails :
    solveMaze exGridC5 20 [] [] =
      SolveRes.done true [((1 : Int), (0 : Int))] [Movement.east] ∧
    solveMaze exGridC5 20 [(1, 0)] [Movement.east] =
      SolveRes.done false [] [Movement.east] := by
  decide

/-- C9 (counterexample): on the 5×5 maze `exGridC9` (a 3×3 open room
with a sealed goal) the search terminates but performs 158 direction
evaluations, more than the claimed bound `rows × cols × 4 = 100`; the
instrumented search agrees with the plain one. -/
theorem c9_more_than_4rc_evaluations :
    (solveMazeC exGridC9 200 [] []).2 = 158 ∧
    4 * rowsOf exGridC9 * colsOf exGridC9 < 158 ∧
    (solveMazeC exGridC9 200 [] []).1 = solveMaze exGridC9 200 [] [] ∧
    solveMaze exGridC9 200 [] [] = SolveRes.done false [] [Movement.east] := by
  decide

/-- C10 (counterexample): on `exGridC10` the solver succeeds with a path
containing `(2, -3)`, a position whose (numpy-wrapped) cell is the goal
marker, not an empty cell; rendering the result overwrites that cell,
and the character `B` does not survive in the output of
`get_maze_with_movements`. -/
theorem c10_goal_marker_overwritten :
    solveMaze exGridC10 50 [] [] = SolveRes.done true exPathC10 exMovsC10 ∧
    ((2 : Int), (-3 : Int)) ∈ exPathC10 ∧
    readCell exGridC10 (2, -3) = some GOAL_POINT ∧
    getMazeWithMovements exGridC10 exPathC10 exMovsC10 =
      some "*S*A*\n*SWN*\n**SN*\n*WSN*\n" ∧
    'B' ∉ ("*S*A*\n*SWN*\n**SN*\n*WSN*\n").toList := by
  decide

/-- C3 (amended): for a run of `solve` started with fresh empty state,
`len(path) == len(movements)` holds beforehand (both are 0) and is
restored when `solve` returns `True`; but when `solve` returns `False`,
`path` is empty while `movements` retains exactly one entry, so the
invariant is broken after a failed solve. -/
theorem c3_lengths_after_solve (g : Grid) (fuel : Nat) (b : Bool)
    (p : List Pos) (mv : List Movement)
    (h : solveMaze g fuel [] [] = SolveRes.done b p mv) :
    (b = true → mv.length = p.length) ∧
    (b = false → p = [] ∧ mv.length = 1) := by
  unfold solveMaze at h
  cases hs : getPoint g START_POINT with
  | none =>
    rw [hs] at h
    cases ht : getPoint g GOAL_POINT with
    | none => rw [ht] at h; simp at h
    | some t => rw [ht] at h; simp at h
  | some s =>
    rw [hs] at h
    cases ht : getPoint g GOAL_POINT with
    | none => rw [ht] at h; simp at h
    | some t =>
      rw [ht] at h
      have h2 : solveLoop g t fuel s [] [] = SolveRes.done b p mv := h
      have hri := solveLoop_inv g t fuel s [] [] (loopInv_nil g t)
      rw [h2] at hri
      cases b with
      | true =>
        exact ⟨fun _ => hri.len, fun hf => by simp at hf⟩
      | false =>
        exact ⟨fun hf => by simp at hf, fun _ => hri⟩

theorem c3_lengths_after_solve_witness :
    solveMaze exGridC5 20 [] [] =
      SolveRes.done true [((1 : Int), (0 : Int))] [Movement.east] ∧
    ((true = true →
        ([Movement.east]).length = ([((1 : Int), (0 : Int))]).length) ∧
     (true = false →
        [((1 : Int), (0 : Int))] = ([] : List Pos) ∧
          ([Movement.east]).length = 1)) :=
  ⟨by decide,
    c3_lengths_after_solve exGridC5 20 true [((1 : Int), (0 : Int))]
      [Movement.east] (by decide)⟩

/-- C6: in every run of `solve` from fresh state, no position occurs
twice in `path` — at any point during the search (`outOfFuel` exposes
every intermediate state for every fuel cutoff) and after it. -/
theorem c6_no_duplicate_positions (g : Grid) (fuel : Nat) :
    (pathOfRes (solveMaze g fuel [] [])).Nodup := by
  cases hs : getPoint g START_POINT with
  | none =>
    cases ht : getPoint g GOAL_POINT with
    | none =>
      have hc : solveMaze g fuel [] [] = SolveRes.crash := by
        unfold solveMaze; rw [hs, ht]
      rw [hc]; simp [pathOfRes]
    | some t =>
      have hc : solveMaze g fuel [] [] = SolveRes.crash := by
        unfold solveMaze; rw [hs, ht]
      rw [hc]; simp [pathOfRes]
  | some s =>
    cases ht : getPoint g GOAL_POINT with
    | none =>
      have hc : solveMaze g fuel [] [] = SolveRes.crash := by
        unfold solveMaze; rw [hs, ht]
      rw [hc]; simp [pathOfRes]
    | some t =>
      have hsm : solveMaze g fuel [] [] = solveLoop g t fuel s [] [] := by
        unfold solveMaze; rw [hs, ht]
      rw [hsm]
      have hri := solveLoop_inv g t fuel s [] [] (loopInv_nil g t)
      cases hres : solveLoop g t fuel s [] [] with
      | crash => simp [pathOfRes]
      | outOfFuel c p m =>
        rw [hres] at hri
        simpa [pathOfRes] using hri.nodup
      | done b p m =>
        rw [hres] at hri
        cases b with
        | true => simpa [pathOfRes] using hri.nodup
        | false => simp [pathOfRes, hri.1]

/-- C9 (amended): for every rectangular grid the search terminates: with
`fuelBound g = 5 ^ (4·rows·cols + 2) + 1` outer iterations available,
`solve` always reaches a terminal outcome (success, failure, or a raised
`IndexError`) — it never needs more fuel.  The claimed
`O(rows × cols × 4)` count of direction evaluations, however, is
exceeded (see the counterexample), because backtracked positions can be
re-explored. -/
theorem c9_terminates_with_fuelBound (g : Grid) (hrect : Rect g) :
    (solveMaze g (fuelBound g) [] []).isOut = false := by
  cases hs : getPoint g START_POINT with
  | none =>
    cases ht : getPoint g GOAL_POINT with
    | none =>
      have hc : solveMaze g (fuelBound g) [] [] = SolveRes.crash := by
        unfold solveMaze; rw [hs, ht]
      rw [hc]; rfl
    | some t =>
      have hc : solveMaze g (fuelBound g) [] [] = SolveRes.crash := by
        unfold solveMaze; rw [hs, ht]
      rw [hc]; rfl
  | some s =>
    cases ht : getPoint g GOAL_POINT with
    | none =>
      have hc : solveMaze g (fuelBound g) [] [] = SolveRes.crash := by
        unfold solveMaze; rw [hs, ht]
      rw [hc]; rfl
    | some t =>
      have hsm : solveMaze g (fuelBound g) [] [] =
          solveLoop g t (fuelBound g) s [] [] := by
        unfold solveMaze; rw [hs, ht]
      rw [hsm]
      apply solveLoop_not_out g t hrect (fuelBound g) s [] [] (loopInv_nil g t)
      simp [fuelBound, measureM]

theorem c9_terminates_with_fuelBound_witness :
    Rect exGridC5 ∧ (solveMaze exGridC5 (fuelBound exGridC5) [] []).isOut = false :=
  ⟨by decide, c9_terminates_with_fuelBound exGridC5 (by decide)⟩

/-- C10 (amended): in a fresh run of `solve`, `path` never contains the
literal start or goal position, and every committed position was read as
an `EMPTY` or `GOAL_POINT` cell — but via numpy negative-index wrapping
that cell can be the goal marker itself (see the counterexample), so
only the `A` marker is guaranteed to survive overlay rendering. -/
theorem c10_path_never_start_goal (g : Grid) (fuel : Nat) (b : Bool)
    (p : List Pos) (mv : List Movement) (s t : Pos)
    (hs : getPoint g START_POINT = some s)
    (ht : getPoint g GOAL_POINT = some t)
    (h : solveMaze g fuel [] [] = SolveRes.done b p mv) :
    ∀ q ∈ p, q ≠ s ∧ q ≠ t ∧
      ∃ c, readCell g q = some c ∧ (c = EMPTY ∨ c = GOAL_POINT) := by
  have hsm : solveMaze g fuel [] [] = solveLoop g t fuel s [] [] := by
    unfold solveMaze; rw [hs, ht]
  rw [hsm] at h
  have hri := solveLoop_inv g t fuel s [] [] (loopInv_nil g t)
  rw [h] at hri
  cases b with
  | false =>
    intro q hq
    rw [hri.1] at hq
    simp at hq
  | true =>
    intro q hq
    obtain ⟨c, hc, hco⟩ := hri.cells q hq
    refine ⟨?_, ?_, c, hc, hco⟩
    · intro hqs
      have hcs : readCell g s = some c := hqs ▸ hc
      rw [getPoint_readCell g START_POINT s hs] at hcs
      rcases hco with h1 | h1 <;> rw [h1] at hcs <;>
        simp [START_POINT, EMPTY, GOAL_POINT] at hcs
    · intro hqt
      exact hri.nogoal (hqt ▸ hq)

/-!  Helper lemmas: parsing / rendering round trip. -/

theorem applyReplaces_append (l₁ l₂ : List Char) :
    applyReplaces (l₁ ++ l₂) = applyReplaces l₁ ++ applyReplaces l₂ := by
  unfold applyReplaces
  generalize CHAR_MAP = ps
  induction ps generalizing l₁ l₂ with
  | nil => simp
  | cons p ps ih =>
    simp only [List.foldl_cons]
    rw [List.flatMap_append]
    exact ih _ _

theorem renderRow_append (v₁ v₂ : List Nat) :
    renderRow (v₁ ++ v₂) = renderRow v₁ ++ renderRow v₂ := by
  unfold renderRow
  rw [List.flatMap_append]
  generalize v₁.flatMap cellDigits = a
  generalize v₂.flatMap cellDigits = b
  generalize CHAR_MAP = ps
  induction ps generalizing a b with
  | nil => simp
  | cons p ps ih =>
    simp only [List.foldl_cons]
    rw [List.map_append]
    exact ih _ _

theorem parseDigits_append (l₁ l₂ : List Char) (r₁ r₂ : List Nat)
    (h₁ : parseDigits l₁ = some r₁) (h₂ : parseDigits l₂ = some r₂) :
    parseDigits (l₁ ++ l₂) = some (r₁ ++ r₂) := by
  induction l₁ generalizing r₁ with
  | nil =>
    simp [parseDigits] at h₁
    subst h₁
    simpa using h₂
  | cons c cs ih =>
    unfold parseDigits at h₁
    cases hp : pyInt c with
    | none => rw [hp] at h₁; simp at h₁
    | some n =>
      rw [hp] at h₁
      cases hd : parseDigits cs with
      | none => rw [hd] at h₁; simp at h₁
      | some ns =>
        rw [hd] at h₁
        simp at h₁
        subst h₁
        have := ih ns hd
        show parseDigits (c :: (cs ++ l₂)) = some (n :: (ns ++ r₂))
        unfold parseDigits
        rw [hp, this]

theorem char_round_trip (c : Char) (h : c ∈ CHAR_MAP.map Prod.fst) :
    ∃ v, parseLine [c] = some [v] ∧ renderRow [v] = [c] := by
  simp [CHAR_MAP] at h
  rcases h with h | h | h | h | h | h | h | h <;> subst h
  · exact ⟨0, by decide, by decide⟩
  · exact ⟨1, by decide, by decide⟩
  · exact ⟨2, by decide, by decide⟩
  · exact ⟨3, by decide, by decide⟩
  · exact ⟨4, by decide, by decide⟩
  · exact ⟨5, by decide, by decide⟩
  · exact ⟨6, by decide, by decide⟩
  · exact ⟨7, by decide, by decide⟩

theorem row_round_trip :
    ∀ (r : List Char), (∀ c ∈ r, c ∈ CHAR_MAP.map Prod.fst) →
    ∃ vs, parseLine r = some vs ∧ renderRow vs = r := by
  intro r
  induction r with
  | nil =>
    intro _
    exact ⟨[], by decide, by decide⟩
  | cons c cs ih =>
    intro hall
    obtain ⟨v, hv1, hv2⟩ := char_round_trip c (hall c (List.mem_cons_self c cs))
    obtain ⟨vs, hvs1, hvs2⟩ := ih (fun x hx => hall x (List.mem_cons_of_mem c hx))
    refine ⟨v :: vs, ?_, ?_⟩
    · have hsplit : parseLine ([c] ++ cs) = some ([v] ++ vs) := by
        unfold parseLine at hv1 hvs1 ⊢
        rw [applyReplaces_append]
        exact parseDigits_append _ _ _ _ hv1 hvs1
      simpa using hsplit
    · have hsplit : renderRow ([v] ++ vs) = [c] ++ cs := by
        rw [renderRow_append, hv2, hvs2]
      simpa using hsplit

theorem fromTxt_render :
    ∀ (rows : List (List Char)),
    (∀ r ∈ rows, ∀ c ∈ r, c ∈ CHAR_MAP.map Prod.fst) →
    ∃ g, fromTxt rows = some g ∧
      g.flatMap (fun row => renderRow row ++ ['\n']) =
        rows.flatMap (fun r => r ++ ['\n']) := by
  intro rows
  induction rows with
  | nil =>
    intro _
    exact ⟨[], rfl, rfl⟩
  | cons r rest ih =>
    intro hall
    obtain ⟨vs, h1, h2⟩ := row_round_trip r (hall r (List.mem_cons_self r rest))
    obtain ⟨g, hg1, hg2⟩ :=
      ih (fun x hx c hc => hall x (List.mem_cons_of_mem r hx) c hc)
    refine ⟨vs :: g, ?_, ?_⟩
    · simp only [fromTxt]
      rw [h1, hg1]
    · simp only [List.flatMap_cons]
      rw [h2, hg2]

/-- C8: parsing a well-formed rectangular maze text (characters from the
documented map, each line terminated by a newline) with `from_txt` and
rendering the grid back with `get_maze` reproduces the original text
character for character. -/
theorem c8_round_trip (rows : List (List Char)) (n : Nat)
    (hchars : ∀ r ∈ rows, ∀ c ∈ r, c ∈ CHAR_MAP.map Prod.fst)
    (_hrect : ∀ r ∈ rows, r.length = n) :
    ∃ g, fromTxt rows = some g ∧
      getMaze g = String.mk (rows.flatMap (fun r => r ++ ['\n'])) := by
  obtain ⟨g, h1, h2⟩ := fromTxt_render rows hchars
  refine ⟨g, h1, ?_⟩
  unfold getMaze
  rw [h2]

theorem c8_round_trip_witness :
    (∀ r ∈ [['A', ' ', '*'], ['*', 'B', '*'], ['*', '*', '*']],
      ∀ c ∈ r, c ∈ CHAR_MAP.map Prod.fst) ∧
    (∀ r ∈ [['A', ' ', '*'], ['*', 'B', '*'], ['*', '*', '*']],
      r.length = 3) ∧
    (∃ g, fromTxt [['A', ' ', '*'], ['*', 'B', '*'], ['*', '*', '*']] = some g ∧
      getMaze g = String.mk
        (([['A', ' ', '*'], ['*', 'B', '*'], ['*', '*', '*']]).flatMap
          (fun r => r ++ ['\n']))) :=
  ⟨by decide, by decide,
    c8_round_trip [['A', ' ', '*'], ['*', 'B', '*'], ['*', '*', '*']] 3
      (by decide) (by decide)⟩

theorem c10_path_never_start_goal_witness :
    getPoint exGridC5 START_POINT = some ((0 : Int), (0 : Int)) ∧
    getPoint exGridC5 GOAL_POINT = some ((1 : Int), (1 : Int)) ∧
    solveMaze exGridC5 20 [] [] =
      SolveRes.done true [((1 : Int), (0 : Int))] [Movement.east] ∧
    (∀ q ∈ [((1 : Int), (0 : Int))],
      q ≠ ((0 : Int), (0 : Int)) ∧ q ≠ ((1 : Int), (1 : Int)) ∧
      ∃ c, readCell exGridC5 q = some c ∧ (c = EMPTY ∨ c = GOAL_POINT)) :=
  ⟨by decide, by decide, by decide,
    c10_path_never_start_goal exGridC5 20 true [((1 : Int), (0 : Int))]
      [Movement.east] ((0 : Int), (0 : Int)) ((1 : Int), (1 : Int))
      (by decide) (by decide) (by decide)⟩

end MazePy
